import Mathlib

/-!
# Verification of the AI Vision Assistant pipeline

A shallow embedding of the core pipeline of `ai_vision_assistant.py`
(`VisionAssistant`): image preprocessing, the interval/speed setters, the
TTS fallback chain, the speech recognizer wrapper, and the three
concurrent loops (capture, auto-describe, voice interaction), modelled as
pure step functions over an explicit `PipelineState`.

External services (camera, vision endpoint, TTS endpoints, speech
recognition backend) are modelled as outcome oracles supplied to each
step.  Python float arithmetic is modelled exactly: values are exact
rationals and each arithmetic result is rounded to the nearest IEEE-754
binary64 value (`roundDouble`, round to nearest, ties to even); Python
`int()` on a float is truncation toward zero; text is a list of Unicode
code points.
-/

namespace AIVisionAssistant

/-- A captured camera frame: width and height in pixels.  Pixel content is
abstracted away (only the geometry matters for the properties below). -/
structure Frame where
  width : Nat
  height : Nat
deriving DecidableEq, Repr

/-- Python `int()` applied to a (real-valued) number, modelled on exact
rationals: truncation toward zero. -/
def pyInt (q : ℚ) : ℤ := if 0 ≤ q then ⌊q⌋ else -⌊-q⌋

lemma pyInt_of_nonneg {q : ℚ} (h : 0 ≤ q) : pyInt q = ⌊q⌋ := by
  simp [pyInt, h]

/-! ## Exact model of IEEE-754 binary64 rounding

Python floats are binary64.  `roundDouble` maps an exact rational to the
value of the nearest binary64 (round to nearest, ties to even), so the
result of each Python float operation on exactly-known operands is
`roundDouble` of the exact result.  Sub-normals and overflow are not
special-cased: every value arising in this program is in the normal
range. -/

/-- `log2aux k n = ⌊log₂ n⌋` for `1 ≤ n < 2 ^ 2 ^ k`, by fixed-depth
binary search (structural recursion on `k`, so concrete values reduce in
the kernel). -/
def log2aux : Nat → Nat → Nat
  | 0, _ => 0
  | k + 1, n => if n < 2 ^ 2 ^ k then log2aux k n else 2 ^ k + log2aux k (n / 2 ^ 2 ^ k)

lemma log2aux_spec : ∀ (k n : Nat), 1 ≤ n → n < 2 ^ 2 ^ k →
    2 ^ log2aux k n ≤ n ∧ n < 2 ^ (log2aux k n + 1) := by
  intro k
  induction k with
  | zero =>
      intro n h1 h2
      simp only [pow_zero, pow_one] at h2
      have hn : n = 1 := by omega
      subst hn
      simp [log2aux]
  | succ k ih =>
      intro n h1 h2
      by_cases hlt : n < 2 ^ 2 ^ k
      · simp only [log2aux, if_pos hlt]
        exact ih n h1 hlt
      · simp only [log2aux, if_neg hlt]
        push_neg at hlt
        have hB1 : 1 ≤ 2 ^ 2 ^ k := Nat.one_le_two_pow
        have hmlow : 1 ≤ n / 2 ^ 2 ^ k := (Nat.one_le_div_iff (by omega)).mpr hlt
        have hmup : n / 2 ^ 2 ^ k < 2 ^ 2 ^ k := by
          apply Nat.div_lt_of_lt_mul
          calc n < 2 ^ 2 ^ (k + 1) := h2
          _ = 2 ^ 2 ^ k * 2 ^ 2 ^ k := by rw [pow_succ, pow_mul, pow_two]
        obtain ⟨ha, hb⟩ := ih (n / 2 ^ 2 ^ k) hmlow hmup
        have hdm := Nat.div_add_mod n (2 ^ 2 ^ k)
        have hmod : n % 2 ^ 2 ^ k < 2 ^ 2 ^ k := Nat.mod_lt n (by omega)
        constructor
        · rw [pow_add]
          calc 2 ^ 2 ^ k * 2 ^ log2aux k (n / 2 ^ 2 ^ k)
              ≤ 2 ^ 2 ^ k * (n / 2 ^ 2 ^ k) :=
                Nat.mul_le_mul_left _ ha
          _ ≤ n := by omega
        · have hb2 : n / 2 ^ 2 ^ k + 1 ≤ 2 ^ (log2aux k (n / 2 ^ 2 ^ k) + 1) := hb
          calc n < 2 ^ 2 ^ k * (n / 2 ^ 2 ^ k) + 2 ^ 2 ^ k := by omega
          _ = 2 ^ 2 ^ k * (n / 2 ^ 2 ^ k + 1) := by ring
          _ ≤ 2 ^ 2 ^ k * 2 ^ (log2aux k (n / 2 ^ 2 ^ k) + 1) :=
                Nat.mul_le_mul_left _ hb2
          _ = 2 ^ (2 ^ k + (log2aux k (n / 2 ^ 2 ^ k) + 1)) :=
                (pow_add 2 (2 ^ k) (log2aux k (n / 2 ^ 2 ^ k) + 1)).symm
          _ = 2 ^ (2 ^ k + log2aux k (n / 2 ^ 2 ^ k) + 1) := by rw [Nat.add_assoc]

/-- `⌊log₂ n⌋` (0 for `n = 0`): kernel-computable for `n < 2 ^ 64`, and
`Nat.log2` beyond. -/
def natLog2 (n : Nat) : Nat :=
  if n < 2 ^ 2 ^ 6 then log2aux 6 n else Nat.log2 n

lemma natLog2_spec {n : Nat} (h : 1 ≤ n) :
    2 ^ natLog2 n ≤ n ∧ n < 2 ^ (natLog2 n + 1) := by
  unfold natLog2
  split
  case isTrue hlt => exact log2aux_spec 6 n h hlt
  case isFalse => exact ⟨Nat.log2_self_le (by omega), Nat.lt_log2_self⟩

/-- Round a rational to the nearest integer, ties to even. -/
def roundNearestEven (q : ℚ) : ℤ :=
  if q - (⌊q⌋ : ℚ) < 1/2 then ⌊q⌋
  else if 1/2 < q - (⌊q⌋ : ℚ) then ⌊q⌋ + 1
  else if ⌊q⌋ % 2 = 0 then ⌊q⌋ else ⌊q⌋ + 1

lemma roundNearestEven_abs (q : ℚ) : |(roundNearestEven q : ℚ) - q| ≤ 1/2 := by
  have h1 : (⌊q⌋ : ℚ) ≤ q := Int.floor_le q
  have h2 : q < (⌊q⌋ : ℚ) + 1 := Int.lt_floor_add_one q
  unfold roundNearestEven
  split
  case isTrue h =>
    rw [abs_le]
    constructor <;> linarith
  case isFalse h =>
    push_neg at h
    split
    case isTrue h3 =>
      rw [abs_le]
      push_cast
      constructor <;> linarith
    case isFalse h3 =>
      push_neg at h3
      split
      · rw [abs_le]
        constructor <;> linarith
      · rw [abs_le]
        push_cast
        constructor <;> linarith

/-- `⌊log₂ q⌋` for a positive rational (junk value on non-positive). -/
def qlog2 (q : ℚ) : ℤ :=
  if (2:ℚ) ^ ((natLog2 q.num.toNat : ℤ) - (natLog2 q.den : ℤ)) ≤ q then
    (natLog2 q.num.toNat : ℤ) - (natLog2 q.den : ℤ)
  else
    (natLog2 q.num.toNat : ℤ) - (natLog2 q.den : ℤ) - 1

lemma qlog2_spec {q : ℚ} (hq : 0 < q) :
    (2:ℚ) ^ qlog2 q ≤ q ∧ q < (2:ℚ) ^ (qlog2 q + 1) := by
  have hnumZ : 0 < q.num := Rat.num_pos.mpr hq
  have hnum : 1 ≤ q.num.toNat := by omega
  have hden : 1 ≤ q.den := q.pos
  obtain ⟨ha1, ha2⟩ := natLog2_spec hnum
  obtain ⟨hb1, hb2⟩ := natLog2_spec hden
  set a := natLog2 q.num.toNat with hadef
  set b := natLog2 q.den with hbdef
  have hden0 : (0:ℚ) < (q.den : ℚ) := by exact_mod_cast hden
  have hnum0 : (0:ℚ) < (q.num.toNat : ℚ) := by exact_mod_cast hnum
  have hq_eq : q = (q.num.toNat : ℚ) / (q.den : ℚ) := by
    rw [show ((q.num.toNat : ℕ) : ℚ) = ((q.num : ℤ) : ℚ) by
      exact_mod_cast congrArg (fun z : ℤ => (z : ℚ)) (Int.toNat_of_nonneg hnumZ.le)]
    exact (Rat.num_div_den q).symm
  have hA1 : (2:ℚ) ^ (a : ℕ) ≤ (q.num.toNat : ℚ) := by exact_mod_cast ha1
  have hA2 : (q.num.toNat : ℚ) < 2 ^ (a + 1 : ℕ) := by exact_mod_cast ha2
  have hB1 : (2:ℚ) ^ (b : ℕ) ≤ (q.den : ℚ) := by exact_mod_cast hb1
  have hB2 : (q.den : ℚ) < 2 ^ (b + 1 : ℕ) := by exact_mod_cast hb2
  have h2 : (2:ℚ) ≠ 0 := two_ne_zero
  have hlow : (2:ℚ) ^ ((a:ℤ) - b - 1) < q := by
    rw [hq_eq]
    rw [show (a:ℤ) - b - 1 = (a:ℤ) - ((b:ℤ) + 1) by ring, zpow_sub₀ h2]
    rw [div_lt_div_iff₀ (by positivity) hden0]
    rw [zpow_natCast, show ((b:ℤ) + 1) = ((b + 1 : ℕ) : ℤ) by push_cast; ring,
      zpow_natCast]
    calc (2:ℚ) ^ (a:ℕ) * (q.den : ℚ) ≤ (q.num.toNat : ℚ) * (q.den : ℚ) :=
          mul_le_mul_of_nonneg_right hA1 hden0.le
    _ < (q.num.toNat : ℚ) * 2 ^ (b + 1 : ℕ) :=
          (mul_lt_mul_left hnum0).mpr hB2
  have hup : q < (2:ℚ) ^ ((a:ℤ) - b + 1) := by
    rw [hq_eq]
    rw [show (a:ℤ) - b + 1 = ((a:ℤ) + 1) - b by ring, zpow_sub₀ h2]
    rw [div_lt_div_iff₀ hden0 (by positivity)]
    rw [show ((a:ℤ) + 1) = ((a + 1 : ℕ) : ℤ) by push_cast; ring, zpow_natCast,
      zpow_natCast]
    calc (q.num.toNat : ℚ) * (2:ℚ) ^ (b:ℕ) ≤ (q.num.toNat : ℚ) * (q.den : ℚ) :=
          mul_le_mul_of_nonneg_left hB1 hnum0.le
    _ < 2 ^ (a + 1 : ℕ) * (q.den : ℚ) :=
          (mul_lt_mul_right hden0).mpr hA2
  unfold qlog2
  rw [← hadef, ← hbdef]
  split
  case isTrue h =>
    exact ⟨h, hup⟩
  case isFalse h =>
    push_neg at h
    constructor
    · exact hlow.le
    · rw [show (a:ℤ) - b - 1 + 1 = (a:ℤ) - b by ring]
      exact h

/-- IEEE-754 binary64 round-to-nearest-even of a positive rational in the
normal range: the value is scaled into `[2^52, 2^53)`, rounded to an
integer significand with ties to even, and scaled back. -/
def roundDoublePos (q : ℚ) : ℚ :=
  (roundNearestEven (q * (2:ℚ) ^ (52 - qlog2 q)) : ℚ) * (2:ℚ) ^ (qlog2 q - 52)

/-- IEEE-754 binary64 rounding (round to nearest, ties to even) of an
exact rational, in the normal range. -/
def roundDouble (q : ℚ) : ℚ :=
  if 0 < q then roundDoublePos q
  else if q < 0 then -roundDoublePos (-q) else 0

lemma roundDoublePos_abs_sub {q : ℚ} (hq : 0 < q) :
    |roundDoublePos q - q| ≤ q / 2 ^ 53 := by
  obtain ⟨hL1, _⟩ := qlog2_spec hq
  have h2 : (2:ℚ) ≠ 0 := two_ne_zero
  have hXq : q * (2:ℚ) ^ (52 - qlog2 q) * (2:ℚ) ^ (qlog2 q - 52) = q := by
    rw [mul_assoc, ← zpow_add₀ h2]
    rw [show 52 - qlog2 q + (qlog2 q - 52) = 0 by ring, zpow_zero, mul_one]
  have hrne := roundNearestEven_abs (q * (2:ℚ) ^ (52 - qlog2 q))
  have hcpos : (0:ℚ) < (2:ℚ) ^ (qlog2 q - 52) := zpow_pos (by norm_num) _
  have key : roundDoublePos q - q =
      ((roundNearestEven (q * (2:ℚ) ^ (52 - qlog2 q)) : ℚ) -
        q * (2:ℚ) ^ (52 - qlog2 q)) * (2:ℚ) ^ (qlog2 q - 52) := by
    rw [sub_mul, hXq, roundDoublePos]
  rw [key, abs_mul, abs_of_pos hcpos]
  have step1 : |(roundNearestEven (q * (2:ℚ) ^ (52 - qlog2 q)) : ℚ) -
      q * (2:ℚ) ^ (52 - qlog2 q)| * (2:ℚ) ^ (qlog2 q - 52) ≤
      (1/2) * (2:ℚ) ^ (qlog2 q - 52) :=
    mul_le_mul_of_nonneg_right hrne hcpos.le
  refine step1.trans ?_
  have e1 : (1/2 : ℚ) * (2:ℚ) ^ (qlog2 q - 52) = (2:ℚ) ^ (qlog2 q - 53) := by
    rw [show (1/2 : ℚ) = (2:ℚ) ^ (-1 : ℤ) by norm_num, ← zpow_add₀ h2]
    rw [show (-1 : ℤ) + (qlog2 q - 52) = qlog2 q - 53 by ring]
  have e2 : (2:ℚ) ^ (qlog2 q - 53) ≤ q * (2:ℚ) ^ (-53 : ℤ) := by
    rw [show qlog2 q - 53 = qlog2 q + (-53) by ring, zpow_add₀ h2]
    exact mul_le_mul_of_nonneg_right hL1 (zpow_pos (by norm_num) _).le
  have e3 : q * (2:ℚ) ^ (-53 : ℤ) = q / 2 ^ 53 := by
    rw [zpow_neg, div_eq_mul_inv]
    norm_num
  rw [e1]
  rw [e3] at e2
  exact e2

/-- The binary64 rounding of `q` differs from `q` by at most one part in
`2 ^ 53` (half-ulp bound in the normal range). -/
lemma roundDouble_abs_sub (q : ℚ) : |roundDouble q - q| ≤ |q| / 2 ^ 53 := by
  unfold roundDouble
  split
  case isTrue h =>
    rw [abs_of_pos h]
    exact roundDoublePos_abs_sub h
  case isFalse h =>
    split
    case isTrue h2 =>
      have h3 : 0 < -q := by linarith
      have hres := roundDoublePos_abs_sub h3
      rw [abs_of_neg h2]
      calc |-roundDoublePos (-q) - q| = |-(roundDoublePos (-q) - -q)| := by ring_nf
      _ = |roundDoublePos (-q) - -q| := abs_neg _
      _ ≤ -q / 2 ^ 53 := hres
    case isFalse h2 =>
      have hq0 : q = 0 := by linarith
      subst hq0
      simp

/-! ## Image preprocessing (`VisionAssistant.prepare_image_for_ai`,
lines 362-388) -/

/-- The geometric core of `VisionAssistant.prepare_image_for_ai`
(lines 362-388) with Python's double-precision semantics: when the frame
is wider than 800 pixels, `scale = 800 / width` is the correctly rounded
binary64 quotient, each dimension is multiplied by `scale` (the product
again rounded to binary64) and truncated with `int()`; otherwise the
frame geometry passes through unchanged.  The int-to-float conversions
are exact for dimensions below `2 ^ 53`, which the size bounds of the
theorems guarantee.  The subsequent colour conversion and JPEG/base64
encoding do not change the geometry and are omitted. -/
def prepare_image_for_ai_resize (f : Frame) : Frame :=
  if 800 < f.width then
    let scale := roundDouble (800 / (f.width : ℚ))
    let new_width := pyInt (roundDouble ((f.width : ℚ) * scale))
    let new_height := pyInt (roundDouble ((f.height : ℚ) * scale))
    { width := new_width.toNat, height := new_height.toNat }
  else f

lemma prepare_width_eq {f : Frame} (h : 800 < f.width) :
    (prepare_image_for_ai_resize f).width =
      (pyInt (roundDouble ((f.width : ℚ) * roundDouble (800 / (f.width : ℚ))))).toNat := by
  unfold prepare_image_for_ai_resize
  rw [if_pos h]

lemma prepare_height_eq {f : Frame} (h : 800 < f.width) :
    (prepare_image_for_ai_resize f).height =
      (pyInt (roundDouble ((f.height : ℚ) * roundDouble (800 / (f.width : ℚ))))).toNat := by
  unfold prepare_image_for_ai_resize
  rw [if_pos h]

/-- The computed width `int(width * (800/width))` in double arithmetic is
799 or 800 for every width above 800 (the rounding errors of the division
and the multiplication stay below half a pixel in total). -/
lemma resize_width_cases (wN : ℕ) (h800 : 800 < wN) :
    (pyInt (roundDouble ((wN : ℚ) * roundDouble (800 / (wN : ℚ))))).toNat = 799 ∨
    (pyInt (roundDouble ((wN : ℚ) * roundDouble (800 / (wN : ℚ))))).toNat = 800 := by
  set w : ℚ := (wN : ℚ) with hwdef
  have hwQ : (800 : ℚ) < w := by rw [hwdef]; exact_mod_cast h800
  have hwpos : (0 : ℚ) < w := by linarith
  have hc_pos : (0 : ℚ) < 800 / w := by positivity
  have hcw : 800 / w * w = 800 := div_mul_cancel₀ 800 (ne_of_gt hwpos)
  set c : ℚ := 800 / w with hcdef
  have hscale : |roundDouble c - c| ≤ c / 2 ^ 53 := by
    have := roundDouble_abs_sub c
    rwa [abs_of_pos hc_pos] at this
  set scale : ℚ := roundDouble c with hscaledef
  have hc_le1 : c ≤ 1 := by
    rw [hcdef, div_le_one hwpos]; linarith
  have hws : |w * scale - 800| ≤ 800 / 2 ^ 53 := by
    have e : w * scale - 800 = w * (scale - c) := by
      rw [mul_sub, mul_comm w c, hcdef, hcw]
    rw [e, abs_mul, abs_of_pos hwpos]
    calc w * |scale - c| ≤ w * (c / 2 ^ 53) :=
          mul_le_mul_of_nonneg_left hscale hwpos.le
    _ = w * c / 2 ^ 53 := by ring
    _ = 800 / 2 ^ 53 := by rw [mul_comm w c, hcdef, hcw]
  have hsmall1 : (800 : ℚ) / 2 ^ 53 < 1 / 4 := by norm_num
  have hws_pos : (0 : ℚ) < w * scale := by
    have := abs_le.mp hws
    linarith
  have hP : |roundDouble (w * scale) - w * scale| ≤ w * scale / 2 ^ 53 := by
    have := roundDouble_abs_sub (w * scale)
    rwa [abs_of_pos hws_pos] at this
  set P : ℚ := roundDouble (w * scale) with hPdef
  have hws_up : w * scale ≤ 800 + 1 / 4 := by
    have := abs_le.mp hws
    linarith
  have hsmall2 : ((800 : ℚ) + 1 / 4) / 2 ^ 53 < 1 / 8 := by norm_num
  have hP800 : |P - 800| ≤ 1 / 2 := by
    have h1 := abs_le.mp hP
    have h2 := abs_le.mp hws
    have h3 : w * scale / 2 ^ 53 ≤ (800 + 1 / 4) / 2 ^ 53 :=
      (div_le_div_iff_of_pos_right (by norm_num)).mpr hws_up
    rw [abs_le]
    constructor <;> linarith
  have hP_pos : (0 : ℚ) ≤ P := by
    have := abs_le.mp hP800
    linarith
  have hfloor_lo : (799 : ℤ) ≤ ⌊P⌋ := by
    apply Int.le_floor.mpr
    have := abs_le.mp hP800
    push_cast
    linarith
  have hfloor_hi : ⌊P⌋ ≤ 800 := by
    have h801 : ⌊P⌋ < 801 := by
      apply Int.floor_lt.mpr
      have := abs_le.mp hP800
      push_cast
      linarith
    omega
  rw [pyInt_of_nonneg hP_pos]
  omega

/-- The computed height `int(height * (800/width))` in double arithmetic
is within one pixel of the exact proportionally scaled height, for frames
of realistic size (the accumulated rounding error is far below the `1/w`
granularity of the exact ratio). -/
lemma resize_height_close (wN hN : ℕ) (h800 : 800 < wN) (hbound : hN ≤ 2 ^ 40) :
    |(((pyInt (roundDouble ((hN : ℚ) * roundDouble (800 / (wN : ℚ))))).toNat : ℚ)) -
      (hN : ℚ) * (800 / (wN : ℚ))| ≤ 1 := by
  have hwQ : (800 : ℚ) < (wN : ℚ) := by exact_mod_cast h800
  have hhQ : ((hN : ℕ) : ℚ) ≤ 2 ^ 40 := by exact_mod_cast hbound
  generalize hwdef : ((wN : ℕ) : ℚ) = w at hwQ ⊢
  generalize htdef : ((hN : ℕ) : ℚ) = ht at hhQ ⊢
  have hwpos : (0 : ℚ) < w := by linarith
  have hh0 : (0 : ℚ) ≤ ht := by rw [← htdef]; positivity
  have hc_pos : (0 : ℚ) < 800 / w := by positivity
  have hcw : 800 / w * w = 800 := div_mul_cancel₀ 800 (ne_of_gt hwpos)
  set c : ℚ := 800 / w with hcdef
  have hc_le1 : c ≤ 1 := by
    rw [hcdef, div_le_one hwpos]; linarith
  have hscale : |roundDouble c - c| ≤ c / 2 ^ 53 := by
    have := roundDouble_abs_sub c
    rwa [abs_of_pos hc_pos] at this
  set scale : ℚ := roundDouble c with hscaledef
  have hscale_pos : 0 < scale := by
    have h1 := abs_le.mp hscale
    have h2 : c / 2 ^ 53 < c := div_lt_self hc_pos (by norm_num)
    linarith
  have hE_nonneg : (0 : ℚ) ≤ ht * c := by positivity
  have hE_le : ht * c ≤ ht := by
    calc ht * c ≤ ht * 1 := mul_le_mul_of_nonneg_left hc_le1 hh0
    _ = ht := mul_one ht
  have hhs : |ht * scale - ht * c| ≤ ht * c / 2 ^ 53 := by
    rw [← mul_sub, abs_mul, abs_of_nonneg hh0]
    calc ht * |scale - c| ≤ ht * (c / 2 ^ 53) :=
          mul_le_mul_of_nonneg_left hscale hh0
    _ = ht * c / 2 ^ 53 := by ring
  have hhs_nonneg : (0 : ℚ) ≤ ht * scale := by positivity
  have hH : |roundDouble (ht * scale) - ht * scale| ≤ ht * scale / 2 ^ 53 := by
    have := roundDouble_abs_sub (ht * scale)
    rwa [abs_of_nonneg hhs_nonneg] at this
  set H : ℚ := roundDouble (ht * scale) with hHdef
  have hEu : ht * c / 2 ^ 53 ≤ ht * c := div_le_self hE_nonneg (by norm_num)
  have hts_le : ht * scale ≤ 2 * (ht * c) := by
    have := abs_le.mp hhs
    linarith
  have hH2 : ht * scale / 2 ^ 53 ≤ 2 * (ht * c) / 2 ^ 53 :=
    (div_le_div_iff_of_pos_right (by norm_num)).mpr hts_le
  have hδ : |H - ht * c| ≤ 3 * (ht * c) / 2 ^ 53 := by
    have h1 := abs_le.mp hH
    have h2 := abs_le.mp hhs
    have h3 : 2 * (ht * c) / 2 ^ 53 + ht * c / 2 ^ 53 = 3 * (ht * c) / 2 ^ 53 := by
      ring
    rw [abs_le]
    constructor <;> linarith
  have hδ_small : 3 * (ht * c) / 2 ^ 53 < 1 / 2 := by
    have h1 : 3 * (ht * c) ≤ 3 * 2 ^ 40 := by linarith
    have h2 : 3 * (ht * c) / 2 ^ 53 ≤ 3 * 2 ^ 40 / 2 ^ 53 :=
      (div_le_div_iff_of_pos_right (by norm_num)).mpr h1
    have h3 : (3 : ℚ) * 2 ^ 40 / 2 ^ 53 < 1 / 2 := by norm_num
    linarith
  have hδE : 3 * (ht * c) / 2 ^ 53 ≤ ht * c := by
    rw [div_le_iff₀ (by norm_num)]
    nlinarith
  have hH_nonneg : (0 : ℚ) ≤ H := by
    have := abs_le.mp hδ
    linarith
  rw [pyInt_of_nonneg hH_nonneg]
  have hfl0 : (0 : ℤ) ≤ ⌊H⌋ := Int.floor_nonneg.mpr hH_nonneg
  have hcast : ((⌊H⌋.toNat : ℕ) : ℚ) = ((⌊H⌋ : ℤ) : ℚ) := by
    exact_mod_cast congrArg (fun z : ℤ => (z : ℚ)) (Int.toNat_of_nonneg hfl0)
  rw [hcast]
  have hfloor_le : (⌊H⌋ : ℚ) ≤ H := Int.floor_le H
  have hfloor_gt : H - 1 < (⌊H⌋ : ℚ) := Int.sub_one_lt_floor H
  have hup : (⌊H⌋ : ℚ) - ht * c ≤ 1 := by
    have := abs_le.mp hδ
    linarith
  have hlow : ht * c - (⌊H⌋ : ℚ) ≤ 1 := by
    by_contra hcon
    push_neg at hcon
    have hx_up : ht * c - (⌊H⌋ : ℚ) < 1 + 3 * (ht * c) / 2 ^ 53 := by
      have := abs_le.mp hδ
      linarith
    have hNQ : ((800 * (hN : ℤ) - ⌊H⌋ * (wN : ℤ) : ℤ) : ℚ) =
        (ht * c - (⌊H⌋ : ℚ)) * w := by
      push_cast
      rw [hwdef, htdef, sub_mul, mul_assoc, hcdef, hcw]
      ring
    have hxw_gt : 1 * w < (ht * c - (⌊H⌋ : ℚ)) * w :=
      mul_lt_mul_of_pos_right hcon hwpos
    rw [one_mul] at hxw_gt
    have hNgt : ((wN : ℤ) : ℚ) < ((800 * (hN : ℤ) - ⌊H⌋ * (wN : ℤ) : ℤ) : ℚ) := by
      rw [hNQ]
      push_cast
      rw [hwdef]
      linarith
    have hNgtZ : (wN : ℤ) < 800 * (hN : ℤ) - ⌊H⌋ * (wN : ℤ) := by
      exact_mod_cast hNgt
    have hNgeZ : (wN : ℤ) + 1 ≤ 800 * (hN : ℤ) - ⌊H⌋ * (wN : ℤ) := by omega
    have hNgeQ : w + 1 ≤ (ht * c - (⌊H⌋ : ℚ)) * w := by
      rw [← hNQ, ← hwdef]
      exact_mod_cast hNgeZ
    have hprod : (ht * c - (⌊H⌋ : ℚ)) * w <
        (1 + 3 * (ht * c) / 2 ^ 53) * w :=
      mul_lt_mul_of_pos_right hx_up hwpos
    rw [add_mul, one_mul] at hprod
    have hδw : 3 * (ht * c) / 2 ^ 53 * w = 2400 * ht / 2 ^ 53 := by
      have h1 : 3 * (ht * c) * w = 2400 * ht := by
        calc 3 * (ht * c) * w = 3 * ht * (c * w) := by ring
        _ = 3 * ht * 800 := by rw [hcdef, hcw]
        _ = 2400 * ht := by ring
      calc 3 * (ht * c) / 2 ^ 53 * w = 3 * (ht * c) * w / 2 ^ 53 := by ring
      _ = 2400 * ht / 2 ^ 53 := by rw [h1]
    have hδw_lt : 2400 * ht / 2 ^ 53 < 1 := by
      have h1 : (2400 : ℚ) * ht ≤ 2400 * 2 ^ 40 := by linarith
      have h2 : (2400 : ℚ) * ht / 2 ^ 53 ≤ 2400 * 2 ^ 40 / 2 ^ 53 :=
        (div_le_div_iff_of_pos_right (by norm_num)).mpr h1
      have h3 : (2400 : ℚ) * 2 ^ 40 / 2 ^ 53 < 1 := by norm_num
      linarith
    rw [hδw] at hprod
    linarith
  rw [abs_le]
  constructor <;> linarith

/-- **C7 (amended)**: for every frame wider than 800 pixels (of realistic
size: both dimensions at most `2 ^ 40`, far beyond any camera and within
the range where int-to-float conversion is exact), the resized output has
width 799 or 800 — the double-precision `int(width * (800/width))` can
land one below 800 — and height within one pixel of the proportionally
scaled height; every frame of width at most 800 passes through
unchanged. -/
theorem C7_resize_double (f : Frame) (_hw : f.width ≤ 2 ^ 40)
    (hh : f.height ≤ 2 ^ 40) :
    (800 < f.width →
      ((prepare_image_for_ai_resize f).width = 799 ∨
        (prepare_image_for_ai_resize f).width = 800) ∧
      |((prepare_image_for_ai_resize f).height : ℚ) -
        (f.height : ℚ) * (800 / (f.width : ℚ))| ≤ 1) ∧
    (f.width ≤ 800 → prepare_image_for_ai_resize f = f) := by
  constructor
  · intro h800
    constructor
    · rw [prepare_width_eq h800]
      exact resize_width_cases f.width h800
    · rw [prepare_height_eq h800]
      exact resize_height_close f.width f.height h800 hh
  · intro hle
    unfold prepare_image_for_ai_resize
    rw [if_neg (by omega)]

/-! ## Interval setter (`VisionAssistant.update_interval`, lines 795-807) -/

/-- Status message produced by `update_interval` via `update_status`. -/
inductive IntervalStatus
  | setTo (v : ℤ)
  | outOfRange
  | invalidValue
deriving DecidableEq, Repr

/-- Result of one call to `update_interval`: the stored
`description_interval` afterwards, the value (if any) written back into the
spinbox display variable `interval_var`, and the status message. -/
structure IntervalResult where
  description_interval : ℤ
  displaySet : Option ℤ
  status : IntervalStatus
deriving DecidableEq, Repr

/-- `VisionAssistant.update_interval` (lines 795-807).  The argument
`input` is the result of Python `int()` on the spinbox text:
`some v` on a successful parse, `none` when `int()` raised `ValueError`.
In range [5,60] the parsed value is stored; otherwise (and on a parse
failure) the stored value is kept, written back to the display, and a
rejection status is shown. -/
def update_interval (stored : ℤ) (input : Option ℤ) : IntervalResult :=
  match input with
  | some v =>
      if 5 ≤ v ∧ v ≤ 60 then
        { description_interval := v, displaySet := none,
          status := IntervalStatus.setTo v }
      else
        { description_interval := stored, displaySet := some stored,
          status := IntervalStatus.outOfRange }
  | none =>
      { description_interval := stored, displaySet := some stored,
        status := IntervalStatus.invalidValue }

/-- The stored interval after a sequence of `update_interval` calls,
starting from `stored`. -/
def run_intervals (stored : ℤ) : List (Option ℤ) → ℤ
  | [] => stored
  | input :: rest => run_intervals (update_interval stored input).description_interval rest

lemma run_intervals_bounds (inputs : List (Option ℤ)) :
    ∀ stored : ℤ, 5 ≤ stored → stored ≤ 60 →
      5 ≤ run_intervals stored inputs ∧ run_intervals stored inputs ≤ 60 := by
  induction inputs with
  | nil => intro stored h1 h2; exact ⟨h1, h2⟩
  | cons input rest ih =>
      intro stored h1 h2
      rcases input with _ | v
      · exact ih stored h1 h2
      · by_cases hv : 5 ≤ v ∧ v ≤ 60
        · have : (update_interval stored (some v)).description_interval = v := by
            simp [update_interval, hv]
          rw [run_intervals, this]
          exact ih v hv.1 hv.2
        · have : (update_interval stored (some v)).description_interval = stored := by
            simp [update_interval, hv]
          rw [run_intervals, this]
          exact ih stored h1 h2

/-- **C2**: an in-range parsed input becomes the stored interval; an
out-of-range or unparseable input leaves the stored interval unchanged,
restores the display to the prior stored value and produces a rejection
status; and starting from the initial value 10 the stored interval always
stays within [5, 60]. -/
theorem C2_update_interval_correct :
    (∀ (stored v : ℤ), 5 ≤ v → v ≤ 60 →
        update_interval stored (some v) =
          { description_interval := v, displaySet := none,
            status := IntervalStatus.setTo v }) ∧
    (∀ (stored v : ℤ), ¬ (5 ≤ v ∧ v ≤ 60) →
        update_interval stored (some v) =
          { description_interval := stored, displaySet := some stored,
            status := IntervalStatus.outOfRange }) ∧
    (∀ stored : ℤ,
        update_interval stored none =
          { description_interval := stored, displaySet := some stored,
            status := IntervalStatus.invalidValue }) ∧
    (∀ inputs : List (Option ℤ),
        5 ≤ run_intervals 10 inputs ∧ run_intervals 10 inputs ≤ 60) := by
  refine ⟨?_, ?_, ?_, ?_⟩
  · intro stored v h1 h2
    simp [update_interval, h1, h2]
  · intro stored v hv
    simp [update_interval, hv]
  · intro stored
    rfl
  · intro inputs
    exact run_intervals_bounds inputs 10 (by norm_num) (by norm_num)

/-- Witness for C2 at concrete inputs: 42 is accepted, 200 is rejected
with the prior value 10 restored, and a short run stays within bounds. -/
theorem C2_update_interval_correct_witness :
    update_interval 10 (some 42) =
      { description_interval := 42, displaySet := none,
        status := IntervalStatus.setTo 42 } ∧
    update_interval 10 (some 200) =
      { description_interval := 10, displaySet := some 10,
        status := IntervalStatus.outOfRange } ∧
    (5 ≤ run_intervals 10 [some 200, none, some 7] ∧
      run_intervals 10 [some 200, none, some 7] ≤ 60) :=
  ⟨C2_update_interval_correct.1 10 42 (by norm_num) (by norm_num),
   C2_update_interval_correct.2.1 10 200 (by norm_num),
   C2_update_interval_correct.2.2.2 [some 200, none, some 7]⟩

/-! ## Speaking-speed setter (`VisionAssistant.update_speaking_speed`,
lines 823-838) -/

/-- Status message produced by `update_speaking_speed`. -/
inductive SpeedStatus
  | setTo (s : ℚ)
  | outOfRange
  | invalidValue
deriving DecidableEq, Repr

/-- Result of one call to `update_speaking_speed`: the stored
`speaking_speed`, the `rate` property of the pyttsx3 engine, the value (if
any) written back to the display variable `speed_var`, and the status. -/
structure SpeedResult where
  speaking_speed : ℚ
  tts_rate : ℤ
  displaySet : Option ℚ
  status : SpeedStatus
deriving DecidableEq, Repr

/-- `VisionAssistant.update_speaking_speed` (lines 823-838).  `input` is
the result of Python `float()` on the spinbox text (`none` =
`ValueError`); a parsed value is the binary64 nearest the typed decimal,
e.g. `roundDouble (3/5)` for the text "0.6".  In range [0.5, 2.0] the
speed is stored and the pyttsx3 engine rate is set to
`int(150 * new_speed)`: the double product `roundDouble (150 * s)`
truncated toward zero.  Otherwise the stored speed and engine rate are
unchanged and the display is restored. -/
def update_speaking_speed (speed : ℚ) (rate : ℤ) (input : Option ℚ) : SpeedResult :=
  match input with
  | some s =>
      if 1/2 ≤ s ∧ s ≤ 2 then
        { speaking_speed := s, tts_rate := pyInt (roundDouble (150 * s)),
          displaySet := none, status := SpeedStatus.setTo s }
      else
        { speaking_speed := speed, tts_rate := rate, displaySet := some speed,
          status := SpeedStatus.outOfRange }
  | none =>
      { speaking_speed := speed, tts_rate := rate, displaySet := some speed,
        status := SpeedStatus.invalidValue }

/-- **C6 (amended)**: an in-range parsed input `s` becomes the stored
speed and the engine rate becomes `int(150 * s)` evaluated in double
precision — the product `150 * s` is rounded to the nearest binary64 and
then truncated toward zero; this equals neither `round(150 * s)` (input
1.25 gives 187, not 188) nor the exact truncation of `150 * s` (input 0.6
gives 90, not 89).  An out-of-range or unparseable input leaves the
stored speed and engine rate unchanged and restores the display to the
prior stored speed. -/
theorem C6_update_speaking_speed_correct :
    (∀ (speed : ℚ) (rate : ℤ) (s : ℚ), 1/2 ≤ s → s ≤ 2 →
        update_speaking_speed speed rate (some s) =
          { speaking_speed := s, tts_rate := pyInt (roundDouble (150 * s)),
            displaySet := none, status := SpeedStatus.setTo s }) ∧
    (∀ (speed : ℚ) (rate : ℤ) (s : ℚ), ¬ (1/2 ≤ s ∧ s ≤ 2) →
        update_speaking_speed speed rate (some s) =
          { speaking_speed := speed, tts_rate := rate, displaySet := some speed,
            status := SpeedStatus.outOfRange }) ∧
    (∀ (speed : ℚ) (rate : ℤ),
        update_speaking_speed speed rate none =
          { speaking_speed := speed, tts_rate := rate, displaySet := some speed,
            status := SpeedStatus.invalidValue }) := by
  refine ⟨?_, ?_, ?_⟩
  · intro speed rate s h1 h2
    have h : (1:ℚ)/2 ≤ s ∧ s ≤ 2 := ⟨h1, h2⟩
    simp only [update_speaking_speed, if_pos h]
  · intro speed rate s hs
    simp only [update_speaking_speed, if_neg hs]
  · intro speed rate
    rfl

/-! ## Speech synthesis fallback chain
(`VisionAssistant.speak_text` lines 447-462, `speak_with_google_cloud_tts`
lines 464-531, `speak_with_gtts` lines 533-574, `speak_with_pyttsx3`
lines 576-583) -/

/-- One tier of the TTS fallback chain. -/
inductive TtsTier
  | googleCloud
  | gtts
  | pyttsx3
deriving DecidableEq, Repr

/-- Outcome oracle for the external speech services: whether each tier,
if attempted, succeeds end-to-end (for the cloud tiers: HTTP 200 with
audio content, playback completed and no exception; for pyttsx3: the
local engine raises no exception). -/
structure TtsEnv where
  googleCloudOk : Bool
  gttsOk : Bool
  pyttsx3Ok : Bool
deriving DecidableEq, Repr

/-- `VisionAssistant.speak_with_google_cloud_tts` (lines 464-531): every
failure (non-200 status, missing `audioContent`, transport error) is
caught internally and reported as `false`; `true` means audio was decoded,
played to completion and cleaned up.  Modelled by the oracle. -/
def speak_with_google_cloud_tts (_text : List Nat) (env : TtsEnv) : Bool :=
  env.googleCloudOk

/-- `VisionAssistant.speak_with_pyttsx3` (lines 576-583): the final local
fallback; produces the sequence of (tier, success) playback attempts it
makes — exactly one attempt, whose success is given by the oracle. -/
def speak_with_pyttsx3 (_text : List Nat) (env : TtsEnv) : List (TtsTier × Bool) :=
  [(TtsTier.pyttsx3, env.pyttsx3Ok)]

/-- `VisionAssistant.speak_with_gtts` (lines 533-574): attempts the gTTS
tier; any exception is caught and `speak_with_pyttsx3` is called instead.
Produces the sequence of (tier, success) playback attempts. -/
def speak_with_gtts (text : List Nat) (env : TtsEnv) : List (TtsTier × Bool) :=
  if env.gttsOk then [(TtsTier.gtts, true)]
  else (TtsTier.gtts, false) :: speak_with_pyttsx3 text env

/-- Models the constant `google_tts_api_key` set in `setup_audio`
(line 129): a non-empty string literal, hence always truthy. -/
def google_tts_api_key_truthy : Bool := true

/-- `VisionAssistant.speak_text` (lines 447-462): tries the Google Cloud
tier first when `use_google_tts_api` is set (the key is a truthy
constant), stopping on success; otherwise falls through to
`speak_with_gtts`, which itself falls back to `speak_with_pyttsx3`.
Produces the sequence of (tier, success) playback attempts. -/
def speak_text (text : List Nat) (use_google_tts_api : Bool) (env : TtsEnv) :
    List (TtsTier × Bool) :=
  if use_google_tts_api && google_tts_api_key_truthy then
    if speak_with_google_cloud_tts text env then [(TtsTier.googleCloud, true)]
    else (TtsTier.googleCloud, false) :: speak_with_gtts text env
  else speak_with_gtts text env

/-- **C4**: whenever the high-quality tier fails or is disabled, the gTTS
tier is attempted exactly once; if it also fails, the local pyttsx3 tier
is attempted; at least one tier is always attempted, and at most one tier
produces output. -/
theorem C4_speak_text_fallback (text : List Nat) (use_google_tts_api : Bool)
    (env : TtsEnv) (_htext : text ≠ [])
    (hfail : use_google_tts_api = false ∨ env.googleCloudOk = false) :
    ((speak_text text use_google_tts_api env).filter
        (fun a => a.1 = TtsTier.gtts)).length = 1 ∧
    (env.gttsOk = false →
      (TtsTier.pyttsx3, env.pyttsx3Ok) ∈ speak_text text use_google_tts_api env) ∧
    speak_text text use_google_tts_api env ≠ [] ∧
    ((speak_text text use_google_tts_api env).filter
        (fun a => a.2 = true)).length ≤ 1 := by
  rcases env with ⟨g, t, p⟩
  cases use_google_tts_api <;> cases g <;> cases t <;> cases p <;>
    simp_all [speak_text, speak_with_gtts, speak_with_pyttsx3,
      speak_with_google_cloud_tts, google_tts_api_key_truthy, List.filter]

/-- Witness for C4 at a concrete input: HD tier enabled but failing,
gTTS failing too, pyttsx3 succeeding. -/
theorem C4_speak_text_fallback_witness :
    ((speak_text [104, 105] true ⟨false, false, true⟩).filter
        (fun a => a.1 = TtsTier.gtts)).length = 1 ∧
    (false = false →
      (TtsTier.pyttsx3, (true : Bool)) ∈ speak_text [104, 105] true ⟨false, false, true⟩) ∧
    speak_text [104, 105] true ⟨false, false, true⟩ ≠ [] ∧
    ((speak_text [104, 105] true ⟨false, false, true⟩).filter
        (fun a => a.2 = true)).length ≤ 1 := by
  have h := C4_speak_text_fallback [104, 105] true ⟨false, false, true⟩
    (by simp) (Or.inr rfl)
  simpa using h

/-! ## Speech recognizer (`VisionAssistant.listen_for_speech`,
lines 585-607) -/

/-- ASCII model of Python `str.lower()` on one code point. -/
def pyLowerChar (c : Nat) : Nat := if 65 ≤ c ∧ c ≤ 90 then c + 32 else c

/-- ASCII model of an upper-case code point (Python `str.isupper()` on one
character). -/
def pyIsUpper (c : Nat) : Bool := decide (65 ≤ c ∧ c ≤ 90)

lemma pyIsUpper_pyLowerChar (c : Nat) : pyIsUpper (pyLowerChar c) = false := by
  unfold pyIsUpper pyLowerChar
  split <;> simp <;> omega

/-- Outcome of the blocking microphone capture plus the external
recognition backend, as raised inside `listen_for_speech`:
a successful recognition of some text, a listen timeout
(`sr.WaitTimeoutError`), unintelligible audio (`sr.UnknownValueError`), or
an unreachable backend (`sr.RequestError`). -/
inductive ListenOutcome
  | success (t : List Nat)
  | waitTimeout
  | unknownValue
  | requestError (msg : List Nat)
deriving DecidableEq, Repr

/-- Status message produced by `listen_for_speech` via `update_status`. -/
inductive ListenStatus
  | processingSpeech
  | noSpeechDetected
  | couldNotUnderstand
  | recognitionError
deriving DecidableEq, Repr

/-- `VisionAssistant.listen_for_speech` (lines 585-607): on success the
recognized text is returned lower-cased; `sr.WaitTimeoutError`,
`sr.UnknownValueError` and `sr.RequestError` are all caught and all
return `None`, distinguished only by the status message. -/
def listen_for_speech (outcome : ListenOutcome) : Option (List Nat) × ListenStatus :=
  match outcome with
  | ListenOutcome.success t => (some (t.map pyLowerChar), ListenStatus.processingSpeech)
  | ListenOutcome.waitTimeout => (none, ListenStatus.noSpeechDetected)
  | ListenOutcome.unknownValue => (none, ListenStatus.couldNotUnderstand)
  | ListenOutcome.requestError _ => (none, ListenStatus.recognitionError)

/-- Counterexample to **C5** as stated: when the recognition backend is
unreachable (`sr.RequestError`), `listen_for_speech` returns `None` — the
same return value as a timeout — not a distinct ServiceUnavailable
error. -/
theorem C5_request_error_counterexample :
    (listen_for_speech (ListenOutcome.requestError [101])).1 = none ∧
    (listen_for_speech ListenOutcome.waitTimeout).1 = none :=
  ⟨rfl, rfl⟩

/-- **C5 (amended)**: `listen_for_speech` returns `None` exactly on
timeout, unintelligible audio, and an unreachable recognition backend;
the backend-unreachable case is distinguished from the other two only by
its status message, not by the return value. -/
theorem C5_listen_none_cases (outcome : ListenOutcome) :
    ((listen_for_speech outcome).1 = none ↔
      outcome = ListenOutcome.waitTimeout ∨
      outcome = ListenOutcome.unknownValue ∨
      ∃ m, outcome = ListenOutcome.requestError m) ∧
    ((listen_for_speech outcome).2 = ListenStatus.recognitionError ↔
      ∃ m, outcome = ListenOutcome.requestError m) := by
  cases outcome <;> simp [listen_for_speech]

/-- **C10**: every non-`None` result of `listen_for_speech` is already
lower-cased: it contains no upper-case character. -/
theorem C10_listen_result_lowercase (outcome : ListenOutcome) (t : List Nat)
    (h : (listen_for_speech outcome).1 = some t) :
    t.all (fun c => !(pyIsUpper c)) = true := by
  cases outcome with
  | success t0 =>
      simp only [listen_for_speech, Option.some.injEq] at h
      subst h
      simp only [List.all_map, List.all_eq_true]
      intro c _
      simp [pyIsUpper_pyLowerChar]
  | waitTimeout => simp [listen_for_speech] at h
  | unknownValue => simp [listen_for_speech] at h
  | requestError m => simp [listen_for_speech] at h

/-- Witness for C10 at a concrete recognition: the text "Hi" (code
points 72, 105) comes back with no upper-case character. -/
theorem C10_listen_result_lowercase_witness :
    ([72, 105].map pyLowerChar).all (fun c => !(pyIsUpper c)) = true :=
  C10_listen_result_lowercase (ListenOutcome.success [72, 105])
    ([72, 105].map pyLowerChar) rfl

/-! ## Pipeline state and the three loops
(`VisionAssistant.__init__` lines 48-76, `camera_loop` lines 632-651,
`ai_processing_loop` lines 653-685, `voice_interaction_loop`
lines 687-719, `start_assistant` lines 728-749) -/

/-- The mutable fields of `VisionAssistant` relevant to the pipeline.
Times are exact rationals (modelling `time.time()` floats). -/
structure PipelineState where
  is_running : Bool
  is_listening : Bool
  auto_describe : Bool
  last_description_time : ℚ
  description_interval : ℤ
  speaking_speed : ℚ
  image_queue : List Frame
  current_frame : Option Frame
deriving DecidableEq, Repr

/-- The state after `__init__` (lines 48-76): not running, not listening,
auto-describe on, `last_description_time = 0`,
`description_interval = 10`, `speaking_speed = 1.2`, empty frame queue
(capacity 2), no current frame. -/
def init_state : PipelineState :=
  { is_running := false, is_listening := false, auto_describe := true,
    last_description_time := 0, description_interval := 10,
    speaking_speed := 6/5, image_queue := [], current_frame := none }

/-- One iteration of `VisionAssistant.camera_loop` (lines 632-651), given
the frame captured by `capture_frame` (`none` when the camera read
failed).  A captured frame is always published to `current_frame`; it is
enqueued on `image_queue` only when the queue (capacity 2, line 71) is not
full, and silently dropped otherwise. -/
def camera_loop_tick (s : PipelineState) (captured : Option Frame) : PipelineState :=
  match captured with
  | none => s
  | some f =>
      if (s.image_queue.length < 2) then
        { s with current_frame := some f, image_queue := s.image_queue ++ [f] }
      else
        { s with current_frame := some f }

/-- Timing and preprocessing data for one iteration of
`ai_processing_loop`: `tGuard` is the `time.time()` read in the guard,
`tCall` the instant `analyze_image_with_ai` is invoked, `tDone` the
`time.time()` stored into `last_description_time` after the analysis
completes, and `prepOk` whether `prepare_image_for_ai` returned a truthy
payload. -/
structure AITickEnv where
  tGuard : ℚ
  tCall : ℚ
  tDone : ℚ
  prepOk : Bool
deriving DecidableEq, Repr

/-- An image-analysis call issued by the auto-describe loop: the instant
the call was issued and the instant the completing timestamp update
occurred. -/
structure AnalysisEvent where
  callTime : ℚ
  doneTime : ℚ
deriving DecidableEq, Repr

/-- One iteration of `VisionAssistant.ai_processing_loop` (lines 653-685):
only when `auto_describe` is set and `tGuard - last_description_time >
description_interval` and the queue is non-empty is a frame dequeued; the
analysis call is issued only if preprocessing succeeded, and then
`last_description_time` is set to the completion time `tDone`. -/
def ai_processing_tick (s : PipelineState) (env : AITickEnv) :
    PipelineState × Option AnalysisEvent :=
  if s.auto_describe ∧ (s.description_interval : ℚ) < env.tGuard - s.last_description_time then
    match s.image_queue with
    | [] => (s, none)
    | _f :: rest =>
        if env.prepOk then
          ({ s with image_queue := rest, last_description_time := env.tDone },
            some { callTime := env.tCall, doneTime := env.tDone })
        else
          ({ s with image_queue := rest }, none)
  else (s, none)

/-- Run of the auto-describe loop over a sequence of tick environments,
collecting the analysis calls issued. -/
def ai_processing_run (s : PipelineState) :
    List AITickEnv → PipelineState × List AnalysisEvent
  | [] => (s, [])
  | env :: rest =>
      let t := ai_processing_tick s env
      let r := ai_processing_run t.1 rest
      (r.1, t.2.toList ++ r.2)

lemma ai_processing_tick_cases (s : PipelineState) (env : AITickEnv) :
    ((ai_processing_tick s env).2 = none ∧
      (ai_processing_tick s env).1.last_description_time = s.last_description_time ∧
      (ai_processing_tick s env).1.description_interval = s.description_interval) ∨
    (∃ ev : AnalysisEvent, (ai_processing_tick s env).2 = some ev ∧
      s.auto_describe = true ∧
      (s.description_interval : ℚ) < env.tGuard - s.last_description_time ∧
      ev.callTime = env.tCall ∧ ev.doneTime = env.tDone ∧
      (ai_processing_tick s env).1.last_description_time = env.tDone ∧
      (ai_processing_tick s env).1.description_interval = s.description_interval) := by
  unfold ai_processing_tick
  split
  case isTrue hcond =>
    split
    · left; exact ⟨rfl, rfl, rfl⟩
    · split
      · right
        exact ⟨{ callTime := env.tCall, doneTime := env.tDone },
          rfl, hcond.1, hcond.2, rfl, rfl, rfl, rfl⟩
      · left; exact ⟨rfl, rfl, rfl⟩
  case isFalse hcond =>
    left; exact ⟨rfl, rfl, rfl⟩

lemma ai_processing_tick_interval (s : PipelineState) (env : AITickEnv) :
    (ai_processing_tick s env).1.description_interval = s.description_interval := by
  rcases ai_processing_tick_cases s env with ⟨_, _, h⟩ | ⟨ev, _, _, _, _, _, _, h⟩ <;>
    exact h

lemma ai_processing_tick_none {s : PipelineState} {env : AITickEnv}
    (h : (ai_processing_tick s env).2 = none) :
    (ai_processing_tick s env).1.last_description_time = s.last_description_time := by
  rcases ai_processing_tick_cases s env with ⟨_, hl, _⟩ | ⟨ev, hev, _⟩
  · exact hl
  · rw [hev] at h; exact absurd h (by simp)

lemma ai_processing_tick_some {s : PipelineState} {env : AITickEnv} {ev : AnalysisEvent}
    (h : (ai_processing_tick s env).2 = some ev) :
    s.auto_describe = true ∧
    (s.description_interval : ℚ) < env.tGuard - s.last_description_time ∧
    ev.callTime = env.tCall ∧ ev.doneTime = env.tDone ∧
    (ai_processing_tick s env).1.last_description_time = env.tDone := by
  rcases ai_processing_tick_cases s env with ⟨hn, _, _⟩ | ⟨ev2, hev, h1, h2, h3, h4, h5, _⟩
  · rw [hn] at h; exact absurd h (by simp)
  · rw [hev] at h
    simp only [Option.some.injEq] at h
    subst h
    exact ⟨h1, h2, h3, h4, h5⟩

lemma ai_processing_run_chain (envs : List AITickEnv) :
    ∀ (s : PipelineState) (e0 : AnalysisEvent) (I : ℚ),
      e0.doneTime = s.last_description_time →
      I = (s.description_interval : ℚ) →
      (∀ e ∈ envs, e.tGuard ≤ e.tCall) →
      List.Chain (fun a b => I < b.callTime - a.doneTime) e0
        (ai_processing_run s envs).2 := by
  induction envs with
  | nil =>
      intro s e0 I _ _ _
      exact List.Chain.nil
  | cons env rest ih =>
      intro s e0 I h0 hI hmono
      have hmono_head : env.tGuard ≤ env.tCall := hmono env (by simp)
      have hmono_rest : ∀ e ∈ rest, e.tGuard ≤ e.tCall := by
        intro e he; exact hmono e (by simp [he])
      simp only [ai_processing_run]
      rcases hev : (ai_processing_tick s env).2 with _ | ev
      · simp only [hev, Option.toList_none, List.nil_append]
        refine ih (ai_processing_tick s env).1 e0 I ?_ ?_ hmono_rest
        · rw [h0, ai_processing_tick_none hev]
        · rw [hI, ai_processing_tick_interval]
      · obtain ⟨_hauto, hgap, hcall, hdone, hlast⟩ := ai_processing_tick_some hev
        simp only [hev, Option.toList_some, List.cons_append, List.nil_append]
        refine List.Chain.cons ?_ ?_
        · rw [hcall, h0, hI]
          have : env.tGuard - s.last_description_time ≤
              env.tCall - s.last_description_time := by linarith
          linarith
        · refine ih (ai_processing_tick s env).1 ev I ?_ ?_ hmono_rest
          · rw [hdone, hlast]
          · rw [hI, ai_processing_tick_interval]

/-- **C1**: (i) an analysis call is issued on a tick only when
`auto_describe` is set and the guard time minus `last_description_time`
exceeds the interval, and then `last_description_time` is updated to the
completion time of that analysis; (ii) consequently, over any sequence of
auto-describe ticks whose guard read precedes the call instant, the calls
are spaced so that each call occurs more than `description_interval`
after the previous analysis's timestamp update (the head element carries
the initial `last_description_time`). -/
theorem C1_auto_describe_spacing :
    (∀ (s : PipelineState) (env : AITickEnv) (ev : AnalysisEvent),
        (ai_processing_tick s env).2 = some ev →
          s.auto_describe = true ∧
          (s.description_interval : ℚ) < env.tGuard - s.last_description_time ∧
          (ai_processing_tick s env).1.last_description_time = ev.doneTime) ∧
    (∀ (s : PipelineState) (envs : List AITickEnv),
        (∀ e ∈ envs, e.tGuard ≤ e.tCall) →
        List.Chain
          (fun a b => (s.description_interval : ℚ) < b.callTime - a.doneTime)
          { callTime := s.last_description_time, doneTime := s.last_description_time }
          (ai_processing_run s envs).2) := by
  constructor
  · intro s env ev h
    obtain ⟨h1, h2, _h3, h4, h5⟩ := ai_processing_tick_some h
    exact ⟨h1, h2, by rw [h5, h4]⟩
  · intro s envs hmono
    exact ai_processing_run_chain envs s
      { callTime := s.last_description_time, doneTime := s.last_description_time }
      ((s.description_interval : ℚ)) rfl rfl hmono

/-- A state with a queued frame, used to exercise C1 concretely. -/
def demo_ai_state : PipelineState :=
  { init_state with is_running := true, image_queue := [⟨640, 480⟩] }

/-- Witness for C1 on a concrete two-tick run: the first tick (guard at
t = 11 > 0 + 10) issues a call completing at t = 12; the second tick
(guard at t = 12, 12 - 12 = 0 < 10) issues none. -/
theorem C1_auto_describe_spacing_witness :
    List.Chain
      (fun a b => ((demo_ai_state.description_interval : ℚ)) < b.callTime - a.doneTime)
      { callTime := demo_ai_state.last_description_time,
        doneTime := demo_ai_state.last_description_time }
      (ai_processing_run demo_ai_state
        [{ tGuard := 11, tCall := 11, tDone := 12, prepOk := true },
         { tGuard := 12, tCall := 12, tDone := 13, prepOk := true }]).2 := by
  refine C1_auto_describe_spacing.2 demo_ai_state _ ?_
  intro e he
  simp only [List.mem_cons, List.mem_singleton] at he
  rcases he with h | h | h
  · rw [h]
  · rw [h]
  · exact absurd h (by simp)

/-! ## Voice-interaction loop (`VisionAssistant.voice_interaction_loop`,
lines 687-719) -/

/-- Outcomes of external calls made by one iteration of the voice loop:
the recognizer outcome, and whether `prepare_image_for_ai` on
`current_frame` returned a truthy payload. -/
structure VoiceTickEnv where
  outcome : ListenOutcome
  prepOk : Bool
deriving DecidableEq, Repr

/-- One iteration of `VisionAssistant.voice_interaction_loop`
(lines 687-719).  When `is_listening` is set: calls `listen_for_speech`;
an image-analysis call is issued only when the result is truthy (a
non-empty string), `current_frame` is present, and preprocessing
succeeded; in every case `is_listening` is cleared afterwards.  Returns
the new state and whether an analysis call was issued. -/
def voice_interaction_tick (s : PipelineState) (env : VoiceTickEnv) :
    PipelineState × Bool :=
  if s.is_listening then
    let speech_text := (listen_for_speech env.outcome).1
    let issued :=
      match speech_text with
      | some t => !t.isEmpty && (s.current_frame.isSome && env.prepOk)
      | none => false
    ({ s with is_listening := false }, issued)
  else (s, false)

/-- **C9**: whenever the voice loop runs an iteration with `is_listening`
set, the flag is cleared after that single attempt regardless of the
recognizer outcome, and if the recognizer returned `None` no
image-analysis call is issued. -/
theorem C9_voice_listening_cleared (s : PipelineState) (env : VoiceTickEnv)
    (h : s.is_listening = true) :
    (voice_interaction_tick s env).1.is_listening = false ∧
    ((listen_for_speech env.outcome).1 = none →
      (voice_interaction_tick s env).2 = false) := by
  unfold voice_interaction_tick
  rw [if_pos h]
  refine ⟨rfl, ?_⟩
  intro hnone
  simp only [hnone]

/-- Witness for C9 on a concrete listening state whose recognizer times
out: the flag ends cleared and no analysis is issued. -/
theorem C9_voice_listening_cleared_witness :
    (voice_interaction_tick { init_state with is_running := true, is_listening := true }
        { outcome := ListenOutcome.waitTimeout, prepOk := true }).1.is_listening = false ∧
    ((listen_for_speech ListenOutcome.waitTimeout).1 = none →
      (voice_interaction_tick { init_state with is_running := true, is_listening := true }
        { outcome := ListenOutcome.waitTimeout, prepOk := true }).2 = false) :=
  C9_voice_listening_cleared
    { init_state with is_running := true, is_listening := true }
    { outcome := ListenOutcome.waitTimeout, prepOk := true } rfl

/-! ## Interleaved pipeline runs and the frame-queue bound -/

/-- One step of any of the three loops, with its external inputs. -/
inductive PipelineStep
  | camera (captured : Option Frame)
  | autoDescribe (env : AITickEnv)
  | voice (env : VoiceTickEnv)
deriving DecidableEq, Repr

/-- Apply one pipeline step to the state. -/
def pipeline_step (s : PipelineState) : PipelineStep → PipelineState
  | PipelineStep.camera captured => camera_loop_tick s captured
  | PipelineStep.autoDescribe env => (ai_processing_tick s env).1
  | PipelineStep.voice env => (voice_interaction_tick s env).1

/-- Run the pipeline from a state over an interleaving of steps. -/
def pipeline_run (s : PipelineState) (steps : List PipelineStep) : PipelineState :=
  steps.foldl pipeline_step s

lemma camera_loop_tick_queue_le {s : PipelineState} (h : s.image_queue.length ≤ 2)
    (captured : Option Frame) :
    (camera_loop_tick s captured).image_queue.length ≤ 2 := by
  rcases captured with _ | f
  · exact h
  · simp only [camera_loop_tick]
    by_cases hlt : s.image_queue.length < 2
    · rw [if_pos hlt]
      show (s.image_queue ++ [f]).length ≤ 2
      simp only [List.length_append, List.length_cons, List.length_nil]
      omega
    · rw [if_neg hlt]
      exact h

lemma ai_processing_tick_queue_le {s : PipelineState} (h : s.image_queue.length ≤ 2)
    (env : AITickEnv) :
    (ai_processing_tick s env).1.image_queue.length ≤ 2 := by
  unfold ai_processing_tick
  split
  · split
    · exact h
    · rename_i f rest heq
      have hr : rest.length + 1 ≤ 2 := by
        have h2 := h
        rw [heq] at h2
        simpa using h2
      split
      · show rest.length ≤ 2
        omega
      · show rest.length ≤ 2
        omega
  · exact h

lemma voice_interaction_tick_queue (s : PipelineState) (env : VoiceTickEnv) :
    (voice_interaction_tick s env).1.image_queue = s.image_queue := by
  unfold voice_interaction_tick
  split <;> rfl

lemma pipeline_run_queue_le (steps : List PipelineStep) :
    ∀ s : PipelineState, s.image_queue.length ≤ 2 →
      (pipeline_run s steps).image_queue.length ≤ 2 := by
  induction steps with
  | nil => intro s h; exact h
  | cons step rest ih =>
      intro s h
      show (pipeline_run (pipeline_step s step) rest).image_queue.length ≤ 2
      refine ih _ ?_
      rcases step with captured | env | env
      · exact camera_loop_tick_queue_le h captured
      · exact ai_processing_tick_queue_le h env
      · rw [show (pipeline_step s (PipelineStep.voice env)).image_queue = s.image_queue
          from voice_interaction_tick_queue s env]
        exact h

/-- **C3**: (i) from the initial state, over any interleaving of capture,
auto-describe and voice steps, the frame queue never holds more than 2
entries; (ii) a capture iteration that finds the queue full leaves the
queue unchanged (the frame is silently dropped from deferred analysis)
while still publishing the frame to `current_frame`. -/
theorem C3_frame_queue_bounded :
    (∀ steps : List PipelineStep,
        (pipeline_run init_state steps).image_queue.length ≤ 2) ∧
    (∀ (s : PipelineState) (f : Frame), 2 ≤ s.image_queue.length →
        (camera_loop_tick s (some f)).image_queue = s.image_queue ∧
        (camera_loop_tick s (some f)).current_frame = some f) := by
  constructor
  · intro steps
    exact pipeline_run_queue_le steps init_state (by simp [init_state])
  · intro s f hfull
    have hnot : ¬ (s.image_queue.length < 2) := by omega
    simp only [camera_loop_tick]
    rw [if_neg hnot]
    exact ⟨rfl, rfl⟩

/-- A state whose frame queue is at capacity, to exercise C3. -/
def demo_full_state : PipelineState :=
  { init_state with is_running := true, image_queue := [⟨640, 480⟩, ⟨640, 480⟩] }

/-- Witness for C3: on a full queue the enqueue is dropped and the frame
is still published; and a concrete interleaving of steps keeps the bound. -/
theorem C3_frame_queue_bounded_witness :
    ((camera_loop_tick demo_full_state (some ⟨320, 240⟩)).image_queue =
        demo_full_state.image_queue ∧
      (camera_loop_tick demo_full_state (some ⟨320, 240⟩)).current_frame =
        some ⟨320, 240⟩) ∧
    (pipeline_run init_state
        [PipelineStep.camera (some ⟨640, 480⟩),
         PipelineStep.camera (some ⟨640, 480⟩),
         PipelineStep.camera (some ⟨640, 480⟩)]).image_queue.length ≤ 2 :=
  ⟨C3_frame_queue_bounded.2 demo_full_state ⟨320, 240⟩ (by decide),
   C3_frame_queue_bounded.1 _⟩

/-! ## Starting the pipeline (`VisionAssistant.start_assistant`,
lines 728-749) -/

/-- Result of `start_assistant`: the state afterwards and whether the
"Cannot start" error dialog was shown. -/
structure StartResult where
  state : PipelineState
  errorShown : Bool
deriving DecidableEq, Repr

/-- `VisionAssistant.start_assistant` (lines 728-749): when the AI model
or the camera is unavailable it shows an error and returns with the state
untouched; otherwise it sets `is_running` and starts the three loops. -/
def start_assistant (ai_model_available camera_available : Bool)
    (s : PipelineState) : StartResult :=
  if !ai_model_available || !camera_available then
    { state := s, errorShown := true }
  else
    { state := { s with is_running := true }, errorShown := false }

/-- **C8**: from a stopped state, `start_assistant` enters the running
state exactly when both the camera and the AI model are available; when
either is unavailable it leaves the whole state unchanged (in particular
still not running) and shows an error. -/
theorem C8_start_fails_closed (ai_model_available camera_available : Bool)
    (s : PipelineState) (h : s.is_running = false) :
    (ai_model_available = true → camera_available = true →
        (start_assistant ai_model_available camera_available s).state.is_running = true ∧
        (start_assistant ai_model_available camera_available s).errorShown = false) ∧
    (ai_model_available = false ∨ camera_available = false →
        (start_assistant ai_model_available camera_available s).state = s ∧
        (start_assistant ai_model_available camera_available s).state.is_running = false ∧
        (start_assistant ai_model_available camera_available s).errorShown = true) := by
  constructor
  · intro hai hcam
    simp [start_assistant, hai, hcam]
  · intro hfail
    have hcond : (!ai_model_available || !camera_available) = true := by
      rcases hfail with hf | hf <;> simp [hf]
    unfold start_assistant
    rw [if_pos hcond]
    exact ⟨rfl, h, rfl⟩

/-- Witness for C8 at concrete inputs: with the camera unavailable, start
is refused from the initial state; with both available, it runs. -/
theorem C8_start_fails_closed_witness :
    ((true : Bool) = true → (true : Bool) = true →
        (start_assistant true true init_state).state.is_running = true ∧
        (start_assistant true true init_state).errorShown = false) ∧
    ((true : Bool) = false ∨ (false : Bool) = false →
        (start_assistant true false init_state).state = init_state ∧
        (start_assistant true false init_state).state.is_running = false ∧
        (start_assistant true false init_state).errorShown = true) :=
  ⟨(C8_start_fails_closed true true init_state rfl).1,
   (C8_start_fails_closed true false init_state rfl).2⟩

/-! ## Concrete evaluations

Witnesses and counterexamples that evaluate `roundDouble` on concrete
inputs.  Batteries marks the `Rat` arithmetic operations `@[irreducible]`,
which blocks kernel evaluation; they are restored to their normal
reducibility locally so that `decide` can run the model. -/

section ConcreteEvaluation

attribute [local semireducible] Rat.add Rat.mul Rat.inv Rat.sub

set_option maxRecDepth 10000 in
/-- Counterexample to **C6** as stated: at input `s = 1.25` (exactly
representable as a binary64, with `150 * 1.25 = 187.5` exact), the code
stores engine rate `int(187.5) = 187`, while the claimed
`round(150 * s) = 188`.  The initial state has speed `1.2` and engine
rate `200` (set in `setup_audio`, line 109). -/
theorem C6_round_counterexample :
    ¬ ((update_speaking_speed (6/5) 200 (some (5/4))).tts_rate =
        round ((150 : ℚ) * (5/4))) := by
  decide

set_option maxRecDepth 10000 in
/-- Witness for the amended C6 at concrete inputs: the binary64 of 0.6 is
accepted and yields engine rate 90 (the double product `150 * 0.6` rounds
up to exactly 90.0, one above the exact truncation 89); 1.25 is accepted
with engine rate 187; 3.0 is rejected, keeping speed 1.2 and rate 200. -/
theorem C6_update_speaking_speed_correct_witness :
    update_speaking_speed (6/5) 200 (some (roundDouble (3/5))) =
      { speaking_speed := roundDouble (3/5), tts_rate := 90, displaySet := none,
        status := SpeedStatus.setTo (roundDouble (3/5)) } ∧
    update_speaking_speed (6/5) 200 (some (5/4)) =
      { speaking_speed := 5/4, tts_rate := 187, displaySet := none,
        status := SpeedStatus.setTo (5/4) } ∧
    update_speaking_speed (6/5) 200 (some 3) =
      { speaking_speed := 6/5, tts_rate := 200, displaySet := some (6/5),
        status := SpeedStatus.outOfRange } := by
  refine ⟨?_, ?_, ?_⟩
  · exact (C6_update_speaking_speed_correct.1 (6/5) 200 (roundDouble (3/5))
      (by decide) (by decide)).trans (by decide)
  · exact (C6_update_speaking_speed_correct.1 (6/5) 200 (5/4)
      (by norm_num) (by norm_num)).trans (by decide)
  · exact C6_update_speaking_speed_correct.2.1 (6/5) 200 3 (by norm_num)

set_option maxRecDepth 10000 in
/-- Counterexample to **C7** as stated: at width 1078 the double-precision
computation yields width 799, not 800 — `800/1078` rounds to a binary64
slightly below the exact ratio, the product `1078 * scale` rounds to a
binary64 just below 800, and `int()` truncates it to 799. -/
theorem C7_resize_counterexample :
    (prepare_image_for_ai_resize { width := 1078, height := 1078 }).width = 799 ∧
    ¬ ((prepare_image_for_ai_resize { width := 1078, height := 1078 }).width = 800) := by
  constructor <;> decide

/-- Witness for the amended C7 at a concrete frame: a 1600x1200 frame
(width and height within the size bounds) is resized to width 799 or 800
with height within one pixel of the exact 600. -/
theorem C7_resize_double_witness :
    ((prepare_image_for_ai_resize { width := 1600, height := 1200 }).width = 799 ∨
      (prepare_image_for_ai_resize { width := 1600, height := 1200 }).width = 800) ∧
    |((prepare_image_for_ai_resize { width := 1600, height := 1200 }).height : ℚ) -
      ((1200 : ℕ) : ℚ) * (800 / ((1600 : ℕ) : ℚ))| ≤ 1 :=
  (C7_resize_double { width := 1600, height := 1200 } (by norm_num)
    (by norm_num)).1 (by norm_num)

end ConcreteEvaluation

end AIVisionAssistant
